import Mathlib

/-
Verification development for the `RedisNameLookup` component of
poc_redis_fastapi_chemblntd (src/poc_redis_fastapi_chemblntd/chebi.py).

The Redis database is modelled as a pair of association maps with unique
keys (`name-lookup` and `name-data` hashes) together with an availability
flag: an unavailable store makes every Redis command raise a transport
error (redis.ConnectionError).  The RDKit canonicalizer is an external
collaborator and is modelled as an abstract function from a SMILES string
to an optional pair of (canonical non-isomeric SMILES, atom-reordering
permutation); `none` models `Chem.MolFromSmiles` returning `None` (after
which `MolToSmiles` raises) or any other RDKit failure.  Python `bytes`
payloads round-trip through msgpack, so records are stored directly.
-/

namespace Chebi

/-- A decoded ChEBI data record as stored in the `name-data` hash
(msgpack map with the compound's fields; the concrete field set comes
from the downloaded archive, not from this repository's code). -/
structure DataRecord where
  name : String
  description : String
  smiles : String
  isomeric : String
deriving DecidableEq, Repr

/-- Result of a successful lookup: the data record, the `chebi` compact
identifier spliced into it by `_name_lookup` (`n["chebi"] = i`), and the
`reordering` field added only by the SMILES branch of `__getitem__`
(`n["reordering"] = r`); `none` models the dict simply lacking the key. -/
structure Resolved where
  record : DataRecord
  chebi : Nat
  reordering : Option (List Nat)
deriving DecidableEq, Repr

/-- Exceptions that the Python code can raise internally.
`transport` models redis.ConnectionError; `deserialize` models
`msgpack.loads(None)` raising after `hget` found no field; `indexError`
models `[0]` on the empty token list in `_sanitized_smiles_str`;
`molParse` models RDKit failing on the token; `keyError q` models the
final `KeyError(f"Cannot resolve: {q}")`. -/
inductive Err where
  | transport
  | deserialize
  | indexError
  | molParse
  | keyError (q : String)
deriving DecidableEq, Repr

instance {ε α : Type} [DecidableEq ε] [DecidableEq α] : DecidableEq (Except ε α) :=
  fun a b =>
    match a, b with
    | .ok x, .ok y =>
      if h : x = y then .isTrue (by rw [h]) else .isFalse (fun hh => h (Except.ok.inj hh))
    | .error x, .error y =>
      if h : x = y then .isTrue (by rw [h]) else .isFalse (fun hh => h (Except.error.inj hh))
    | .ok _, .error _ => .isFalse (fun hh => Except.noConfusion hh)
    | .error _, .ok _ => .isFalse (fun hh => Except.noConfusion hh)

/-- The Redis database as `RedisNameLookup` uses it: the `name-lookup`
hash (lookup key → compact identifier), the `name-data` hash (compact
identifier → record), and whether the connection works.  Redis hash
fields are unique, so the association lists carry at most one binding
per key (maintained by `hset`). -/
structure Store where
  lookupMap : List (String × Nat)
  dataMap : List (Nat × DataRecord)
  available : Bool
deriving DecidableEq, Repr

/-- The abstract RDKit canonicalizer:
`MolFromSmiles` + `MolToSmiles(mol, isomericSmiles=False)` +
`ast.literal_eval(mol.GetProp("_smilesAtomOutputOrder"))`, or failure. -/
abbrev Canon := String → Option (String × List Nat)

/-- Association-list field lookup, modelling `redis.hget` on one hash
(`none` = field absent, which `hget` reports as a `None` reply). -/
def hfind {α β : Type} [DecidableEq α] : List (α × β) → α → Option β
  | [], _ => none
  | (k', v) :: rest, k => if k' = k then some v else hfind rest k

/-- Redis `hset` on one hash: overwrite the binding if the field exists,
append it otherwise. -/
def hset {α β : Type} [DecidableEq α] : List (α × β) → α → β → List (α × β)
  | [], k, v => [(k, v)]
  | (k', v') :: rest, k, v =>
    if k' = k then (k, v) :: rest else (k', v') :: hset rest k v

/-- A sequence of `hset` commands (one pipeline's worth, or a whole map). -/
def hsetList {α β : Type} [DecidableEq α] (m : List (α × β)) (kvs : List (α × β)) :
    List (α × β) :=
  kvs.foldl (fun acc kv => hset acc kv.1 kv.2) m

/-- hget on the `name-lookup` hash; raises on a dead connection. -/
def hgetLookup (st : Store) (k : String) : Except Err (Option Nat) :=
  if st.available then .ok (hfind st.lookupMap k) else .error .transport

/-- hget on the `name-data` hash; raises on a dead connection. -/
def hgetData (st : Store) (i : Nat) : Except Err (Option DataRecord) :=
  if st.available then .ok (hfind st.dataMap i) else .error .transport

/-- RedisNameLookup._name_lookup: `i = hget("name-lookup", name)`;
`i = msgpack.loads(i)` (raises TypeError when the field was absent);
`n = msgpack.loads(hget("name-data", i))` (likewise); `n["chebi"] = i`;
any exception is re-raised to the caller. -/
def name_lookup (st : Store) (name : String) : Except Err Resolved :=
  match hgetLookup st name with
  | .error e => .error e
  | .ok none => .error .deserialize
  | .ok (some i) =>
    match hgetData st i with
    | .error e => .error e
    | .ok none => .error .deserialize
    | .ok (some rec) => .ok { record := rec, chebi := i, reordering := none }

/-- ASCII uppercase test (the service's lookup keys and queries are
ASCII SMILES strings and names). -/
def upperChar (c : Char) : Bool := decide (65 ≤ c.toNat ∧ c.toNat ≤ 90)

/-- Python `str.lower` on one character (ASCII case mapping). -/
def pyCharLower (c : Char) : Char :=
  if 65 ≤ c.toNat ∧ c.toNat ≤ 90 then Char.ofNat (c.toNat + 32) else c

/-- Python `q.lower()`. -/
def pyLower (s : String) : String := ⟨s.data.map pyCharLower⟩

/-- Whether a string contains an (ASCII) uppercase character. -/
def hasUpper (s : String) : Bool := s.data.any upperChar

/-- First maximal run of non-whitespace characters, if any. -/
def firstTokenL (cs : List Char) : Option (List Char) :=
  match cs.dropWhile Char.isWhitespace with
  | [] => none
  | c :: rest => some (c :: rest.takeWhile (fun d => !d.isWhitespace))

/-- RedisNameLookup._sanitized_smiles_str: `smi.strip().split()[0]`.
Python `split()` with no separator yields the maximal non-whitespace
runs (the leading `strip()` cannot change them), and `[0]` raises
IndexError — modelled as `none` — when there is no run at all. -/
def sanitized_smiles_str (s : String) : Option String :=
  (firstTokenL s.data).map fun cs => ⟨cs⟩

/-- RedisNameLookup.__getitem__, lines 63-84 of chebi.py: the first
`try` block sanitizes, canonicalizes, looks the canonical SMILES up and
attaches the atom reordering; its `except` swallows every exception.
The second `try` block looks up `q.lower()` and its `except` likewise
swallows everything; then `KeyError(f"Cannot resolve: {q}")` is raised. -/
def getitem (canon : Canon) (st : Store) (q : String) : Except Err Resolved :=
  match
    (match sanitized_smiles_str q with
     | none => .error .indexError
     | some tok =>
       match canon tok with
       | none => .error .molParse
       | some (smiles, reorder) =>
         match name_lookup st smiles with
         | .error e => .error e
         | .ok n => .ok { n with reordering := some reorder } : Except Err Resolved)
  with
  | .ok n => .ok n
  | .error _ =>
    match name_lookup st (pyLower q) with
    | .ok n => .ok n
    | .error _ => .error (.keyError q)

/-- The structure-path attempt as the specification words it: extract
the first whitespace-delimited token, canonicalize it, look the
canonical string up with no case transformation, attach `reordering`. -/
def smilesAttempt (canon : Canon) (st : Store) (q : String) : Except Err Resolved :=
  match sanitized_smiles_str q with
  | none => .error .indexError
  | some tok =>
    match canon tok with
    | none => .error .molParse
    | some (smiles, reorder) =>
      match name_lookup st smiles with
      | .error e => .error e
      | .ok n => .ok { n with reordering := some reorder }

/-- The name-path attempt as the specification words it: look up the
entire original query, lowercased, with no tokenization. -/
def nameAttempt (st : Store) (q : String) : Except Err Resolved :=
  name_lookup st (pyLower q)

/-- The decoded download `D`: `D["data"]` (identifier → record, written
to the `name-data` hash) and `D["lookup"]` (key → identifier, written to
the `name-lookup` hash), in dict iteration order.  `download_data` is
network I/O, so the dataset is a parameter of `load`. -/
structure Dataset where
  data : List (Nat × DataRecord)
  lookup : List (String × Nat)
deriving DecidableEq, Repr

/-- What `load` returns: Python `False` (skipped) or the
`{"data": ..., "lookup": ...}` dict of per-category counts. -/
inductive LoadResult where
  | skipped
  | counts (c : List (String × Nat))
deriving DecidableEq, Repr

/-- redis `hlen("name-lookup")`: the number of fields of the lookup hash. -/
def hlen (st : Store) : Nat := st.lookupMap.length

/-- RedisNameLookup.loaded: `self.redis.hlen("name-lookup") > 1000`. -/
def loaded (st : Store) : Bool := 1000 < hlen st

/-- The pipeline batches of the loading loop for one hash, in order:
`n` starts at 1 and is incremented after each buffered `hset`; the
pipeline is executed and reset whenever `n % 64 == 0`, and executed one
final time after the loop (possibly empty).  Each returned list is the
contents of one `pipe.execute()` round-trip. -/
def batches {γ : Type} : List γ → List γ → Nat → List (List γ)
  | [], buf, _ => [buf]
  | kv :: rest, buf, n =>
    if (n + 1) % 64 == 0 then (buf ++ [kv]) :: batches rest [] (n + 1)
    else batches rest (buf ++ [kv]) (n + 1)

/-- The store after every entry of the dataset has been `hset`:
the `"data"` term written to `name-data`, the `"lookup"` term to
`name-lookup` (batch boundaries do not change the final contents). -/
def applyDataset (D : Dataset) (st : Store) : Store :=
  { st with dataMap := hsetList st.dataMap D.data,
            lookupMap := hsetList st.lookupMap D.lookup }

/-- RedisNameLookup.load, lines 108-143 of chebi.py: unless forced,
return `False` when `loaded()`; otherwise take the `name-lock`
(expire=30, auto_renewal — it serializes writers only), download, write
`D["data"]` then `D["lookup"]` through batched pipelines, and return
`{k: sum(l) for k, l in lens.items()}` where each element of `lens[term]`
is `len(pipe.execute())`, the number of commands in that round-trip.
Every Redis command raises on a dead connection, hence the guard. -/
def load (D : Dataset) (st : Store) (force : Bool) : Except Err (Store × LoadResult) :=
  if st.available = false then .error .transport
  else if !force && loaded st then .ok (st, .skipped)
  else
    .ok (applyDataset D st,
      .counts [("data", ((batches D.data [] 1).map List.length).sum),
               ("lookup", ((batches D.lookup [] 1).map List.length).sum)])

/-- RedisNameLookup.flush: `self.redis.flushdb()` discards every key of
the database, hence both hashes. -/
def flush (st : Store) : Store := { st with lookupMap := [], dataMap := [] }

/-- One `pipe.execute()` of `name-data` writes during the `"data"` round. -/
def updData (s : Store) (b : List (Nat × DataRecord)) : Store :=
  { s with dataMap := hsetList s.dataMap b }

/-- One `pipe.execute()` of `name-lookup` writes during the `"lookup"` round. -/
def updLookup (s : Store) (b : List (String × Nat)) : Store :=
  { s with lookupMap := hsetList s.lookupMap b }

/-- The store states visible between atomic batch writes: the state
before the first batch and after each batch in turn. -/
def statesFrom {γ : Type} (upd : Store → γ → Store) (st : Store) : List γ → List Store
  | [] => [st]
  | b :: bs => st :: statesFrom upd (upd st b) bs

/-- Every store state a concurrent reader can observe while `load` is
writing: each `pipe.execute()` is one atomic Redis round-trip, the
`"data"` term is written completely before the `"lookup"` term, and
readers (`__getitem__`) never touch the `name-lock`, so every
inter-batch state is observable. -/
def loadStates (D : Dataset) (st : Store) : List Store :=
  let bd := batches D.data [] 1
  let bl := batches D.lookup [] 1
  statesFrom updData st bd ++ statesFrom updLookup (bd.foldl updData st) bl

/-- The store with one field removed from the `name-lookup` hash (used
to state that a key is unreachable: removing it changes nothing). -/
def eraseKey (k : String) (st : Store) : Store :=
  { st with lookupMap := st.lookupMap.filter (fun p => !(p.1 == k)) }

theorem getitem_eq_attempts (canon : Canon) (st : Store) (q : String) :
    getitem canon st q =
      match smilesAttempt canon st q with
      | .ok n => .ok n
      | .error _ =>
        match nameAttempt st q with
        | .ok n => .ok n
        | .error _ => .error (.keyError q) := rfl

theorem getitem_of_smiles_ok {canon : Canon} {st : Store} {q : String} {n : Resolved}
    (h : smilesAttempt canon st q = .ok n) : getitem canon st q = .ok n := by
  rw [getitem_eq_attempts, h]

theorem getitem_of_smiles_err {canon : Canon} {st : Store} {q : String} {e : Err}
    (h : smilesAttempt canon st q = .error e) :
    getitem canon st q =
      match nameAttempt st q with
      | .ok n => .ok n
      | .error _ => .error (.keyError q) := by
  rw [getitem_eq_attempts, h]

theorem getitem_error_shape (canon : Canon) (st : Store) (q : String) (e : Err)
    (h : getitem canon st q = .error e) : e = .keyError q := by
  rw [getitem_eq_attempts] at h
  rcases h1 : smilesAttempt canon st q with e1 | n1 <;> rw [h1] at h
  · rcases h2 : nameAttempt st q with e2 | n2 <;> rw [h2] at h
    · exact (Except.error.inj h).symm
    · exact absurd h (by simp)
  · exact absurd h (by simp)

theorem pyCharLower_not_upper (c : Char) : upperChar (pyCharLower c) = false := by
  unfold pyCharLower
  split
  · rename_i h
    obtain ⟨h1, h2⟩ := h
    unfold upperChar
    have hval : (Char.ofNat (c.toNat + 32)).toNat = c.toNat + 32 := by
      set n := c.toNat with hn
      interval_cases n <;> decide
    rw [hval]
    simp only [decide_eq_false_iff_not]
    omega
  · rename_i h
    unfold upperChar
    simp only [decide_eq_false_iff_not]
    exact h

theorem pyLower_ne {k : String} (hk : hasUpper k = true) (q : String) :
    pyLower q ≠ k := by
  intro heq
  have hdata : k.data = q.data.map pyCharLower := by
    have := congrArg String.data heq
    simpa [pyLower] using this.symm
  obtain ⟨c, hc, hup⟩ := List.any_eq_true.mp hk
  rw [hdata] at hc
  obtain ⟨c', _, hcc⟩ := List.mem_map.mp hc
  rw [← hcc] at hup
  rw [pyCharLower_not_upper c'] at hup
  exact Bool.false_ne_true hup

theorem name_lookup_ok_iff (st : Store) (x : String) (n : Resolved) :
    name_lookup st x = .ok n ↔
      st.available = true ∧ hfind st.lookupMap x = some n.chebi ∧
        hfind st.dataMap n.chebi = some n.record ∧ n.reordering = none := by
  unfold name_lookup hgetLookup hgetData
  rcases hav : st.available with _ | _
  · simp
  · simp only [if_true]
    rcases hfl : hfind st.lookupMap x with _ | i
    · simp
    · rcases hfd : hfind st.dataMap i with _ | rec
      · simp only
        rw [hfd]
        constructor
        · intro h
          exact absurd h (by simp)
        · rintro ⟨-, h2, h3, -⟩
          have hi : i = n.chebi := Option.some.inj h2
          rw [hi, h3] at hfd
          exact absurd hfd (by simp)
      · simp only
        rw [hfd]
        constructor
        · intro h
          have hn : n = { record := rec, chebi := i, reordering := none } :=
            (Except.ok.inj h).symm
          subst hn
          simp_all
        · rintro ⟨-, h2, h3, h4⟩
          have hi : i = n.chebi := Option.some.inj h2
          subst hi
          have hr : rec = n.record := Option.some.inj (by rw [← hfd, h3])
          subst hr
          cases n with
          | mk record chebi reordering => simp_all

theorem name_lookup_reordering {st : Store} {x : String} {n : Resolved}
    (h : name_lookup st x = .ok n) : n.reordering = none :=
  ((name_lookup_ok_iff st x n).mp h).2.2.2

theorem hfind_hset_ne {α β : Type} [DecidableEq α] (m : List (α × β)) {k' k : α} (v : β)
    (h : k' ≠ k) : hfind (hset m k' v) k = hfind m k := by
  induction m with
  | nil => simp [hset, hfind, h]
  | cons p rest ih =>
    rcases p with ⟨pk, pv⟩
    by_cases hpk : pk = k'
    · subst hpk
      simp [hset, hfind, h]
    · simp only [hset, if_neg hpk]
      by_cases hk : pk = k
      · simp [hfind, hk]
      · simp [hfind, hk, ih]

theorem hfind_hsetList_nomem {α β : Type} [DecidableEq α] (kvs : List (α × β)) (m : List (α × β))
    {k : α} (h : ∀ p ∈ kvs, p.1 ≠ k) : hfind (hsetList m kvs) k = hfind m k := by
  induction kvs generalizing m with
  | nil => rfl
  | cons p rest ih =>
    have hstep : hsetList m (p :: rest) = hsetList (hset m p.1 p.2) rest := rfl
    rw [hstep, ih _ (fun q hq => h q (List.mem_cons_of_mem p hq)),
      hfind_hset_ne m p.2 (h p (List.mem_cons_self p rest))]

theorem hsetList_append {α β : Type} [DecidableEq α] (m : List (α × β)) (xs ys : List (α × β)) :
    hsetList m (xs ++ ys) = hsetList (hsetList m xs) ys := by
  unfold hsetList
  exact List.foldl_append _ _ _ _

theorem batches_join {γ : Type} (kvs : List γ) :
    ∀ (buf : List γ) (n : Nat), (batches kvs buf n).flatten = buf ++ kvs := by
  induction kvs with
  | nil => intro buf n; simp [batches]
  | cons kv rest ih =>
    intro buf n
    unfold batches
    by_cases h : (n + 1) % 64 = 0
    · simp only [h]
      simp [ih [] (n + 1)]
    · have h' : ((n + 1) % 64 == 0) = false := by simp [h]
      rw [h']
      simp only [Bool.false_eq_true, if_false]
      rw [ih (buf ++ [kv]) (n + 1)]
      simp

theorem batches_ne_nil {γ : Type} (kvs : List γ) :
    ∀ (buf : List γ) (n : Nat), batches kvs buf n ≠ [] := by
  induction kvs with
  | nil => intro buf n; simp [batches]
  | cons kv rest ih =>
    intro buf n
    unfold batches
    by_cases h : (n + 1) % 64 = 0 <;> simp [h, ih]

theorem batches_length_sum {γ : Type} (kvs : List γ) (buf : List γ) (n : Nat) :
    ((batches kvs buf n).map List.length).sum = buf.length + kvs.length := by
  have := congrArg List.length (batches_join kvs buf n)
  rw [List.length_flatten, List.length_append] at this
  exact this

theorem statesFrom_pres {γ δ : Type} (upd : Store → γ → Store) (f : Store → δ)
    (hf : ∀ s b, f (upd s b) = f s) (bs : List γ) :
    ∀ (st : Store), ∀ s ∈ statesFrom upd st bs, f s = f st := by
  induction bs with
  | nil =>
    intro st s hs
    rw [List.mem_singleton.mp hs]
  | cons b rest ih =>
    intro st s hs
    rcases List.mem_cons.mp hs with h | h
    · rw [h]
    · rw [ih (upd st b) s h, hf st b]

theorem foldl_updData_dataMap (bs : List (List (Nat × DataRecord))) :
    ∀ (st : Store), (bs.foldl updData st).dataMap = hsetList st.dataMap bs.flatten := by
  induction bs with
  | nil => intro st; rfl
  | cons b rest ih =>
    intro st
    rw [List.foldl_cons, ih (updData st b), List.flatten_cons, hsetList_append]
    rfl

theorem batches_nil {γ : Type} (buf : List γ) (n : Nat) :
    batches ([] : List γ) buf n = [buf] := rfl

theorem batches_cons {γ : Type} (kv : γ) (rest buf : List γ) (n : Nat) :
    batches (kv :: rest) buf n =
      if (n + 1) % 64 == 0 then (buf ++ [kv]) :: batches rest [] (n + 1)
      else batches rest (buf ++ [kv]) (n + 1) := rfl

theorem batches_small {γ : Type} (kvs : List γ) :
    ∀ (buf : List γ) (n : Nat), kvs.length < 64 - n % 64 →
      batches kvs buf n = [buf ++ kvs] := by
  induction kvs with
  | nil => intro buf n _; simp [batches]
  | cons kv rest ih =>
    intro buf n h
    have hlen : rest.length + 1 < 64 - n % 64 := by
      simpa [List.length_cons] using h
    have hmod : (n + 1) % 64 ≠ 0 := by omega
    rw [batches_cons]
    have hcond : ((n + 1) % 64 == 0) = false := by simp [hmod]
    rw [hcond]
    simp only [Bool.false_eq_true, if_false]
    rw [ih (buf ++ [kv]) (n + 1) (by omega)]
    simp

theorem batches_split {γ : Type} (kvs : List γ) :
    ∀ (buf : List γ) (n : Nat), 64 - n % 64 ≤ kvs.length →
      batches kvs buf n =
        (buf ++ kvs.take (64 - n % 64)) ::
          batches (kvs.drop (64 - n % 64)) [] (n + (64 - n % 64)) := by
  induction kvs with
  | nil =>
    intro buf n h
    exfalso
    have : n % 64 < 64 := Nat.mod_lt _ (by omega)
    simp only [List.length_nil] at h
    omega
  | cons kv rest ih =>
    intro buf n h
    by_cases hmod : (n + 1) % 64 = 0
    · have ht : 64 - n % 64 = 1 := by omega
      rw [batches_cons]
      have hcond : ((n + 1) % 64 == 0) = true := by simp [hmod]
      rw [hcond]
      simp only [if_true, ht, List.take_succ_cons, List.take_zero, List.drop_succ_cons,
        List.drop_zero]
    · have hm63 : n % 64 < 63 := by
        have : n % 64 < 64 := Nat.mod_lt _ (by omega)
        omega
      have ht : 64 - n % 64 = (64 - (n + 1) % 64) + 1 := by omega
      rw [batches_cons]
      have hcond : ((n + 1) % 64 == 0) = false := by simp [hmod]
      rw [hcond]
      simp only [Bool.false_eq_true, if_false]
      have hlen : 64 - (n + 1) % 64 ≤ rest.length := by
        simp only [List.length_cons] at h
        omega
      rw [ih (buf ++ [kv]) (n + 1) hlen, ht, List.take_succ_cons, List.drop_succ_cons]
      have harith : n + ((64 - (n + 1) % 64) + 1) = (n + 1) + (64 - (n + 1) % 64) := by
        omega
      rw [harith]
      simp only [List.append_assoc, List.singleton_append]

theorem batches_sizes_all64 {γ : Type} :
    ∀ (N : Nat) (kvs : List γ) (n : Nat), kvs.length = N → n % 64 = 0 →
      ∀ x ∈ ((batches kvs [] n).map List.length).dropLast, x = 64 := by
  intro N
  induction N using Nat.strong_induction_on with
  | _ N ih =>
    intro kvs n hlen hn x hx
    by_cases hsmall : kvs.length < 64
    · rw [batches_small kvs [] n (by omega)] at hx
      simp at hx
    · have hge : 64 - n % 64 ≤ kvs.length := by omega
      rw [batches_split kvs [] n hge] at hx
      have ht : 64 - n % 64 = 64 := by omega
      rw [ht] at hx
      simp only [List.nil_append, List.map_cons] at hx
      have htake : (kvs.take 64).length = 64 := by
        rw [List.length_take]
        omega
      have hne : (batches (kvs.drop 64) [] (n + 64)).map List.length ≠ [] := by
        simp [batches_ne_nil]
      rw [List.dropLast_cons_of_ne_nil hne] at hx
      rcases List.mem_cons.mp hx with h | h
      · rw [h, htake]
      · exact ih (kvs.length - 64) (by omega) (kvs.drop 64) (n + 64)
          (by rw [List.length_drop]) (by omega) x h

theorem batchSizes_spec {γ : Type} (kvs : List γ) :
    (kvs.length < 63 → (batches kvs [] 1).map List.length = [kvs.length]) ∧
    (63 ≤ kvs.length → ((batches kvs [] 1).map List.length).head? = some 63) ∧
    (∀ x ∈ (((batches kvs [] 1).map List.length).tail).dropLast, x = 64) := by
  refine ⟨?_, ?_, ?_⟩
  · intro h
    rw [batches_small kvs [] 1 (by omega)]
    simp
  · intro h
    rw [batches_split kvs [] 1 (by omega)]
    simp only [List.nil_append, List.map_cons, List.head?_cons]
    have : (kvs.take (64 - 1 % 64)).length = 63 := by
      rw [List.length_take]
      omega
    rw [this]
  · intro x hx
    by_cases h : kvs.length < 63
    · rw [batches_small kvs [] 1 (by omega)] at hx
      simp at hx
    · rw [batches_split kvs [] 1 (by omega)] at hx
      simp only [List.map_cons, List.tail_cons] at hx
      exact batches_sizes_all64 (kvs.drop (64 - 1 % 64)).length _ _ rfl (by omega) x hx

theorem name_lookup_unavailable {st : Store} (h : st.available = false) (x : String) :
    name_lookup st x = .error .transport := by
  simp [name_lookup, hgetLookup, h]

theorem smilesAttempt_ok_shape {canon : Canon} {st : Store} {q : String} {m : Resolved}
    (h : smilesAttempt canon st q = .ok m) :
    ∃ tok cs r n0, sanitized_smiles_str q = some tok ∧ canon tok = some (cs, r) ∧
      name_lookup st cs = .ok n0 ∧ m = { n0 with reordering := some r } := by
  unfold smilesAttempt at h
  rcases hs : sanitized_smiles_str q with _ | tok
  · simp [hs] at h
  · simp only [hs] at h
    rcases hc : canon tok with _ | ⟨cs, r⟩
    · simp [hc] at h
    · simp only [hc] at h
      rcases hn : name_lookup st cs with e | n0
      · simp [hn] at h
      · simp only [hn] at h
        exact ⟨tok, cs, r, n0, rfl, hc, hn, (Except.ok.inj h).symm⟩

theorem smilesAttempt_err_of_parts {canon : Canon} {st : Store} {q : String}
    (h : ∀ tok cs r, sanitized_smiles_str q = some tok → canon tok = some (cs, r) →
      ∃ e, name_lookup st cs = .error e) :
    ∃ e, smilesAttempt canon st q = .error e := by
  rcases hs : sanitized_smiles_str q with _ | tok
  · exact ⟨.indexError, by simp [smilesAttempt, hs]⟩
  · rcases hc : canon tok with _ | ⟨cs, r⟩
    · exact ⟨.molParse, by simp [smilesAttempt, hs, hc]⟩
    · obtain ⟨e, he⟩ := h tok cs r hs hc
      exact ⟨e, by simp [smilesAttempt, hs, hc, he]⟩

/-- Aggregate fixture: a canonicalizer that rejects every token, as
`MolFromSmiles` does on malformed input. -/
def canonNone : Canon := fun _ => none

/-- Fixture: a canonicalizer whose canonical form is the input itself,
with a one-atom output order. -/
def canonEcho : Canon := fun s => some (s, [0])

/-- Fixture: an empty, reachable store. -/
def stEmpty : Store := ⟨[], [], true⟩

/-- C1.  For every query string q, resolve (RedisNameLookup.__getitem__)
attempts resolution in a fixed order: first the structure path — extract
the first whitespace-delimited token of q, canonicalize it, and look the
canonical string up with no case transformation — and, only if that path
fails, the name path — look up q.lower(), the entire original query
lowercased with no tokenization; if both attempts fail, it signals a
distinct not-resolvable condition (KeyError) carrying the original
query, and no internal per-strategy failure is surfaced to the caller. -/
theorem resolve_fixed_order (canon : Canon) (st : Store) (q : String) :
    getitem canon st q =
      (match smilesAttempt canon st q with
       | .ok n => .ok n
       | .error _ =>
         match nameAttempt st q with
         | .ok n => .ok n
         | .error _ => .error (.keyError q)) ∧
    (∀ e, getitem canon st q = .error e → e = Err.keyError q) :=
  ⟨getitem_eq_attempts canon st q, getitem_error_shape canon st q⟩

theorem resolve_fixed_order_witness : Err.keyError "aspirin" = Err.keyError "aspirin" :=
  (resolve_fixed_order canonNone stEmpty "aspirin").2 (Err.keyError "aspirin") rfl

/-- Fixture: a populated store whose connection is down. -/
def stDown : Store := ⟨[("terbinafine", 9448)], [(9448, ⟨"terbinafine", "", "", ""⟩)], false⟩

/-- C4 (code bug, spec section 9 flags it).  A transport-level failure of
the backing store during resolve is NOT surfaced as a distinct internal
error: both `except` blocks of `__getitem__` swallow it, so the caller
sees the same `KeyError` as for an unresolvable query. -/
theorem transport_error_swallowed (canon : Canon) (st : Store) (q : String)
    (h : st.available = false) : getitem canon st q = .error (.keyError q) := by
  obtain ⟨e, he⟩ := smilesAttempt_err_of_parts
    (fun tok cs r _ _ => ⟨.transport, name_lookup_unavailable h cs⟩)
  rw [getitem_of_smiles_err he, nameAttempt, name_lookup_unavailable h]

theorem transport_error_swallowed_witness :
    getitem canonNone stDown "terbinafine" = .error (.keyError "terbinafine") :=
  transport_error_swallowed canonNone stDown "terbinafine" rfl

/-- C6.  A successful resolve carries the `reordering` field exactly
when resolution went through the structure path; a name-path result has
no `reordering` field. -/
theorem reordering_iff_structure_path (canon : Canon) (st : Store) (q : String)
    (n : Resolved) (h : getitem canon st q = .ok n) :
    (n.reordering.isSome = true ↔ ∃ m, smilesAttempt canon st q = .ok m) ∧
    (∀ e, smilesAttempt canon st q = .error e → n.reordering = none) := by
  rcases hs : smilesAttempt canon st q with e | m
  · rw [getitem_of_smiles_err hs] at h
    rcases hn : nameAttempt st q with e2 | m2 <;> rw [hn] at h
    · exact absurd h (by simp)
    · have hnm : n = m2 := (Except.ok.inj h).symm
      have hre : n.reordering = none := by
        rw [hnm]
        exact name_lookup_reordering hn
      constructor
      · rw [hre]
        simp only [Option.isSome_none, Bool.false_eq_true, false_iff]
        rintro ⟨m, hm⟩
        exact Except.noConfusion hm
      · intro _ _
        exact hre
  · have hg : getitem canon st q = Except.ok m := by
      rw [getitem_eq_attempts, hs]
    rw [hg] at h
    have hnm : n = m := (Except.ok.inj h).symm
    have hsome : ∃ r, m.reordering = some r := by
      obtain ⟨tok, cs, r, n0, -, -, -, hm⟩ := smilesAttempt_ok_shape hs
      exact ⟨r, by rw [hm]⟩
    constructor
    · constructor
      · intro _
        exact ⟨m, rfl⟩
      · intro _
        obtain ⟨r, hr⟩ := hsome
        rw [hnm, hr]
        rfl
    · intro e he
      exact Except.noConfusion he

/-- Fixture: a store holding the lowercase lookup key `"cc"`. -/
def stLowerCC : Store := ⟨[("cc", 3)], [(3, ⟨"ethane", "", "", ""⟩)], true⟩

theorem reordering_iff_structure_path_witness :
    (((⟨⟨"ethane", "", "", ""⟩, 3, some [0]⟩ : Resolved).reordering.isSome = true ↔
       ∃ m, smilesAttempt canonEcho stLowerCC "cc" = .ok m) ∧
     (∀ e, smilesAttempt canonEcho stLowerCC "cc" = .error e →
       (⟨⟨"ethane", "", "", ""⟩, 3, some [0]⟩ : Resolved).reordering = none)) :=
  reordering_iff_structure_path canonEcho stLowerCC "cc" _ rfl

/-- Fixture: a store whose only lookup key is the three-space string. -/
def stWs : Store := ⟨[("   ", 1)], [(1, ⟨"odd", "", "", ""⟩)], true⟩

/-- C8 counterexample.  The claim quantifies over every store in which
only the EMPTY string is absent as a lookup key; but `resolve("   ")`
looks up the lowercased whole query `"   "`, so a store that binds the
three-space key (and not the empty key) makes `resolve("   ")` succeed
instead of raising KeyError. -/
theorem empty_query_cex :
    getitem canonNone stWs "   " = .ok ⟨⟨"odd", "", "", ""⟩, 1, none⟩ ∧
      hfind stWs.lookupMap "" = none := ⟨rfl, rfl⟩

/-- C8 as amended: `resolve("")` raises KeyError whenever `""` is not a
lookup key, and `resolve("   ")` raises KeyError whenever `"   "` (the
lowercased whole query, whitespace preserved) is not a lookup key; in
both cases tokenization finds no first token, so the structure path
fails regardless of the canonicalizer, and no other error escapes. -/
theorem empty_query_amended (canon : Canon) (st : Store) :
    (hfind st.lookupMap "" = none → getitem canon st "" = .error (.keyError "")) ∧
    (hfind st.lookupMap "   " = none → getitem canon st "   " = .error (.keyError "   ")) := by
  constructor
  · intro hempty
    have hs : smilesAttempt canon st "" = .error .indexError := rfl
    rw [getitem_of_smiles_err hs]
    rcases hn : nameAttempt st "" with e | n
    · rfl
    · exfalso
      have hlow : pyLower "" = "" := rfl
      unfold nameAttempt at hn
      rw [hlow] at hn
      have := ((name_lookup_ok_iff st "" n).mp hn).2.1
      rw [hempty] at this
      exact Option.noConfusion this
  · intro hws
    have hs : smilesAttempt canon st "   " = .error .indexError := rfl
    rw [getitem_of_smiles_err hs]
    rcases hn : nameAttempt st "   " with e | n
    · rfl
    · exfalso
      have hlow : pyLower "   " = "   " := rfl
      unfold nameAttempt at hn
      rw [hlow] at hn
      have := ((name_lookup_ok_iff st "   " n).mp hn).2.1
      rw [hws] at this
      exact Option.noConfusion this

theorem empty_query_amended_witness :
    getitem canonNone stEmpty "" = .error (.keyError "") ∧
      getitem canonNone stEmpty "   " = .error (.keyError "   ") :=
  ⟨(empty_query_amended canonNone stEmpty).1 rfl,
   (empty_query_amended canonNone stEmpty).2 rfl⟩

/-- Fixture: a store binding the uppercase canonical-SMILES key `"CC"`. -/
def stUpperCC : Store := ⟨[("CC", 5)], [(5, ⟨"ethane", "", "CC", "CC"⟩)], true⟩

/-- C5 counterexample.  `"CC"` is a lookup key with a data-map entry, yet
resolve fails on it: the canonicalizer rejects the token (as it may — it
is a black box), and the name path then looks up `"cc"`, not `"CC"`, so
both strategies miss and KeyError is raised. -/
theorem lookup_key_resolution_cex :
    hfind stUpperCC.lookupMap "CC" = some 5 ∧
      hfind stUpperCC.dataMap 5 = some ⟨"ethane", "", "CC", "CC"⟩ ∧
      getitem canonNone stUpperCC "CC" = .error (.keyError "CC") :=
  ⟨rfl, rfl, rfl⟩

/-- C5 as amended: resolve(k) returns the stored record with `chebi = i`
for a lookup key k bound to i with a data-map entry, provided one of the
two paths actually reaches k: either the structure path fails and
k is already lowercase (`k.lower() == k`), or the canonicalizer maps
k's first token back to k itself. -/
theorem lookup_key_resolution_amended (canon : Canon) (st : Store) (k : String)
    (i : Nat) (rec : DataRecord) (hav : st.available = true)
    (hl : hfind st.lookupMap k = some i) (hd : hfind st.dataMap i = some rec) :
    ((∃ e, smilesAttempt canon st k = .error e) → pyLower k = k →
       getitem canon st k = .ok ⟨rec, i, none⟩) ∧
    (∀ tok r, sanitized_smiles_str k = some tok → canon tok = some (k, r) →
       getitem canon st k = .ok ⟨rec, i, some r⟩) := by
  have hnl : name_lookup st k = .ok ⟨rec, i, none⟩ :=
    (name_lookup_ok_iff st k ⟨rec, i, none⟩).mpr ⟨hav, hl, hd, rfl⟩
  constructor
  · rintro ⟨e, he⟩ hlow
    rw [getitem_of_smiles_err he]
    simp [nameAttempt, hlow, hnl]
  · intro tok r hs hc
    have hsm : smilesAttempt canon st k = .ok ⟨rec, i, some r⟩ := by
      simp [smilesAttempt, hs, hc, hnl]
    exact getitem_of_smiles_ok hsm

theorem lookup_key_resolution_amended_witness :
    getitem canonEcho stLowerCC "cc" = .ok ⟨⟨"ethane", "", "", ""⟩, 3, some [0]⟩ :=
  (lookup_key_resolution_amended canonEcho stLowerCC "cc" 3 ⟨"ethane", "", "", ""⟩
    rfl rfl rfl).2 "cc" [0] rfl rfl

theorem hfind_filter_ne {β : Type} (m : List (String × β)) {x k : String} (hx : x ≠ k) :
    hfind (m.filter (fun p => !(p.1 == k))) x = hfind m x := by
  induction m with
  | nil => rfl
  | cons p rest ih =>
    rcases p with ⟨pk, pv⟩
    by_cases hpk : pk = k
    · subst hpk
      have h2 : pk ≠ x := fun h => hx h.symm
      have h1 : (!(pk == pk)) = false := by simp
      rw [List.filter_cons, h1]
      simp only [Bool.false_eq_true, if_false]
      rw [ih]
      show hfind rest x = if pk = x then some pv else hfind rest x
      rw [if_neg h2]
    · have h1 : (!(pk == k)) = true := by simp [hpk]
      rw [List.filter_cons, h1]
      simp only [if_true]
      show (if pk = x then some pv else hfind (rest.filter fun p => !(p.1 == k)) x) =
        if pk = x then some pv else hfind rest x
      rw [ih]

theorem name_lookup_erase {k x : String} (st : Store) (hx : x ≠ k) :
    name_lookup (eraseKey k st) x = name_lookup st x := by
  unfold name_lookup hgetLookup hgetData eraseKey
  simp only
  rw [hfind_filter_ne st.lookupMap hx]

/-- C10.  The name path examines only `q.lower()`, which never contains
an uppercase character, so a lookup key with an uppercase character can
never be matched by the name path for any query: if resolving q gives a
different outcome once such a key k is removed from the lookup hash,
then the structure path succeeded and its canonical string equals k. -/
theorem uppercase_key_structure_only (canon : Canon) (st : Store) (q k : String)
    (hk : hasUpper k = true) :
    pyLower q ≠ k ∧
    (getitem canon st q ≠ getitem canon (eraseKey k st) q →
      ∃ tok cs r, sanitized_smiles_str q = some tok ∧ canon tok = some (cs, r) ∧ cs = k) := by
  refine ⟨pyLower_ne hk q, ?_⟩
  intro hdiff
  by_contra hnone
  push_neg at hnone
  apply hdiff
  have hname : nameAttempt (eraseKey k st) q = nameAttempt st q := by
    unfold nameAttempt
    exact name_lookup_erase st (pyLower_ne hk q)
  have hsm : smilesAttempt canon (eraseKey k st) q = smilesAttempt canon st q := by
    unfold smilesAttempt
    rcases hs : sanitized_smiles_str q with _ | tok
    · rfl
    · rcases hc : canon tok with _ | ⟨cs, r⟩
      · simp only [hc]
      · simp only [hc]
        rw [name_lookup_erase st (hnone tok cs r hs hc)]
  rw [getitem_eq_attempts, getitem_eq_attempts, hsm, hname]

/-- Fixture: a store whose single lookup key `"CC"` is uppercase. -/
def stC10 : Store := ⟨[("CC", 7)], [(7, ⟨"ethane", "", "", ""⟩)], true⟩

theorem uppercase_key_structure_only_witness :
    ∃ tok cs r, sanitized_smiles_str "CC" = some tok ∧ canonEcho tok = some (cs, r) ∧
      cs = "CC" :=
  (uppercase_key_structure_only canonEcho stC10 "CC" "CC" (by decide)).2 (by decide)

/-- Fixture: a one-record dataset, as decoded from the download. -/
def dsSmall : Dataset := ⟨[(2, ⟨"new", "", "", ""⟩)], [("new", 2)]⟩

/-- C7.  With `force=False`, load returns False and writes nothing
exactly when the lookup hash holds more than 1000 fields (the `loaded()`
check, independent of the data hash); otherwise it loads and returns the
per-category counts of records written. -/
theorem load_skip_semantics (D : Dataset) (st : Store) (hav : st.available = true) :
    ((load D st false = .ok (st, .skipped)) ↔ loaded st = true) ∧
    (loaded st = false →
      load D st false = .ok (applyDataset D st,
        .counts [("data", D.data.length), ("lookup", D.lookup.length)])) ∧
    (∀ dm, loaded { st with dataMap := dm } = loaded st) := by
  refine ⟨?_, ?_, fun dm => rfl⟩
  · by_cases hl : loaded st
    · simp [load, hav, hl]
    · simp [load, hav, hl]
  · intro hl
    have h1 : ((batches D.data [] 1).map List.length).sum = D.data.length := by
      rw [batches_length_sum]
      simp
    have h2 : ((batches D.lookup [] 1).map List.length).sum = D.lookup.length := by
      rw [batches_length_sum]
      simp
    simp [load, hav, hl, h1, h2]

theorem load_skip_semantics_witness :
    load dsSmall stEmpty false = .ok (applyDataset dsSmall stEmpty,
      .counts [("data", 1), ("lookup", 1)]) :=
  (load_skip_semantics dsSmall stEmpty rfl).2.1 rfl

/-- Fixtures for the load counterexamples: a populated store and a
dataset that does not mention its entries. -/
def recOld : DataRecord := ⟨"old", "", "", ""⟩

/-- Fixture: the single fresh record of the new dataset. -/
def recNew : DataRecord := ⟨"new", "", "", ""⟩

/-- Fixture: pre-load store holding an entry absent from the new dataset. -/
def stStale : Store := ⟨[("stale", 7)], [(7, recOld)], true⟩

/-- Fixture: the freshly downloaded dataset. -/
def dsNew : Dataset := ⟨[(2, recNew)], [("new", 2)]⟩

/-- C3 counterexample.  A completed (forced) load leaves the pre-existing
entry `("stale", 7)` in the lookup hash even though `"stale"` is absent
from the new dataset: `load` never flushes, it only overlays `hset`s. -/
theorem load_keeps_stale_entries_cex :
    load dsNew stStale true = .ok (⟨[("stale", 7), ("new", 2)],
        [(7, recOld), (2, recNew)], true⟩, .counts [("data", 1), ("lookup", 1)]) ∧
      hfind [("stale", 7), ("new", 2)] "stale" = some 7 ∧
      (dsNew.lookup.map Prod.fst).contains "stale" = false :=
  ⟨rfl, rfl, rfl⟩

/-- C3 as amended: load performs no flush — it overlays the dataset onto
the existing hashes key by key, so every pre-existing binding whose key
is absent from the new dataset survives a completed load unchanged; the
separate `flush` operation (never invoked by `load`) is what empties
both maps. -/
theorem load_overlay_amended (D : Dataset) (st : Store) (force : Bool)
    (st' : Store) (res : LoadResult) (h : load D st force = .ok (st', res)) :
    (∀ k v, hfind st.lookupMap k = some v → (∀ p ∈ D.lookup, p.1 ≠ k) →
      hfind st'.lookupMap k = some v) ∧
    (∀ i r, hfind st.dataMap i = some r → (∀ p ∈ D.data, p.1 ≠ i) →
      hfind st'.dataMap i = some r) ∧
    (flush st).lookupMap = [] ∧ (flush st).dataMap = [] := by
  by_cases hav : st.available
  · by_cases hl : (!force && loaded st) = true
    · rw [load, if_neg (by simp [hav]), if_pos hl] at h
      have hpair : (st, LoadResult.skipped) = (st', res) := Except.ok.inj h
      have hst : st' = st := (Prod.mk.injEq _ _ _ _ ▸ hpair).1.symm
      subst hst
      exact ⟨fun k v hk _ => hk, fun i r hi _ => hi, rfl, rfl⟩
    · rw [load, if_neg (by simp [hav]), if_neg hl] at h
      have hpair := Except.ok.inj h
      have hst : st' = applyDataset D st := ((Prod.mk.injEq _ _ _ _).mp hpair).1.symm
      subst hst
      refine ⟨?_, ?_, rfl, rfl⟩
      · intro k v hk hnm
        show hfind (hsetList st.lookupMap D.lookup) k = some v
        rw [hfind_hsetList_nomem D.lookup st.lookupMap hnm, hk]
      · intro i r hi hnm
        show hfind (hsetList st.dataMap D.data) i = some r
        rw [hfind_hsetList_nomem D.data st.dataMap hnm, hi]
  · rw [load, if_pos (by simp [hav])] at h
    exact absurd h (by simp)

theorem load_overlay_amended_witness :
    hfind (⟨[("stale", 7), ("new", 2)], [(7, recOld), (2, recNew)], true⟩ :
      Store).lookupMap "stale" = some 7 :=
  (load_overlay_amended dsNew stStale true _ _ rfl).1 "stale" 7 rfl (by decide)

/-- Fixture: pre-load store for the interleaving counterexample. -/
def stPre : Store := ⟨[("old", 1)], [(1, recOld)], true⟩

/-- Fixture: dataset loaded concurrently with a reader. -/
def dsMix : Dataset := ⟨[(2, recNew)], [("mix", 2)]⟩

/-- C2 counterexample.  Readers never touch the `name-lock` (only
writers do), and `load` writes the `name-data` hash before `name-lookup`
in separate round-trips, so a concurrent reader can observe the state
whose data map already holds the new record while the lookup map is
still the old one — neither the fully-old nor the fully-new pair. -/
theorem bulk_load_not_atomic_cex :
    ¬ (∀ s ∈ loadStates dsMix stPre,
        (s.lookupMap = stPre.lookupMap ∧ s.dataMap = stPre.dataMap) ∨
        (s.lookupMap = (applyDataset dsMix stPre).lookupMap ∧
          s.dataMap = (applyDataset dsMix stPre).dataMap)) := by decide

/-- C2 as amended: the mutual-exclusion lock serializes writers only, so
a reader may observe intermediate mixed states; what does hold is the
write order — every observable state either still has the old lookup
map, or already has the completely rewritten data map (the `"data"` term
is written in full before the first `"lookup"` write). -/
theorem load_interleaving_amended (D : Dataset) (st : Store) (s : Store)
    (h : s ∈ loadStates D st) :
    s.lookupMap = st.lookupMap ∨ s.dataMap = hsetList st.dataMap D.data := by
  simp only [loadStates] at h
  rcases List.mem_append.mp h with h1 | h2
  · exact Or.inl (statesFrom_pres updData Store.lookupMap (fun _ _ => rfl) _ st s h1)
  · right
    have hd := statesFrom_pres updLookup Store.dataMap (fun _ _ => rfl) _
      ((batches D.data [] 1).foldl updData st) s h2
    rw [hd, foldl_updData_dataMap, batches_join D.data [] 1]
    rfl

theorem load_interleaving_amended_witness :
    (⟨[("old", 1)], [(1, recOld), (2, recNew)], true⟩ : Store).lookupMap =
        stPre.lookupMap ∨
      (⟨[("old", 1)], [(1, recOld), (2, recNew)], true⟩ : Store).dataMap =
        hsetList stPre.dataMap dsMix.data :=
  load_interleaving_amended dsMix stPre _ (by decide)

/-- Fixture: a dataset whose data term has exactly 64 records. -/
def ds64 : Dataset := ⟨(List.range 64).map (fun i => (i, recNew)), []⟩

/-- C9 counterexample.  Writing a 64-entry map produces the round-trips
[63, 1]: since `n` starts at 1 and is incremented before the `n % 64`
test, the FIRST `pipe.execute()` fires after only 63 `hset`s, so a
non-final batch with 63 (not 64) entries exists. -/
theorem batch_size_cex :
    ¬ (∀ x ∈ ((batches ds64.data [] 1).map List.length).dropLast, x = 64) := by decide

/-- C9 as amended: for each of the two maps, the first round-trip
carries 63 entries (all of them when fewer than 63 exist), every later
non-final round-trip carries exactly 64, and the final round-trip
carries the remainder. -/
theorem batch_sizes_amended (D : Dataset) :
    ((D.data.length < 63 → (batches D.data [] 1).map List.length = [D.data.length]) ∧
     (63 ≤ D.data.length → ((batches D.data [] 1).map List.length).head? = some 63) ∧
     (∀ x ∈ (((batches D.data [] 1).map List.length).tail).dropLast, x = 64)) ∧
    ((D.lookup.length < 63 → (batches D.lookup [] 1).map List.length = [D.lookup.length]) ∧
     (63 ≤ D.lookup.length → ((batches D.lookup [] 1).map List.length).head? = some 63) ∧
     (∀ x ∈ (((batches D.lookup [] 1).map List.length).tail).dropLast, x = 64)) :=
  ⟨batchSizes_spec D.data, batchSizes_spec D.lookup⟩

theorem batch_sizes_amended_witness :
    ((batches ds64.data [] 1).map List.length).head? = some 63 ∧
      (batches ds64.lookup [] 1).map List.length = [0] :=
  ⟨(batch_sizes_amended ds64).1.2.1 (by decide),
   (batch_sizes_amended ds64).2.1 (by decide)⟩

end Chebi
